import Mathlib

/-!
Shallow embedding of `src/airfoil_data/polargenerator.py`.

The script drives XFOIL to produce polar files for a fixed list of Reynolds
numbers and a fixed AOA sweep, and then cleans up the working directory.

Modelling choices:
* The working directory is an association list `FileSys` from file names to
  file contents (contents abstracted as `Nat` identifiers); real directories
  have distinct names, which theorems assume via `(listdir fs).Nodup`.
* Python numeric values (`re * 100000`, `np.arange`) are modelled as exact
  rationals `Rat`.
* Raised exceptions are modelled with `Except String`; the payload string is
  the Python exception message (`"Airfoil file not foud"` for the
  `ValueError` raised by `main`, `"FileNotFoundError"` for the exception
  `os.rename` raises when the source path does not exist).
* The external solver `xf.call` is an opaque collaborator: each invocation is
  recorded as an `XfoilCall` trace event; the files it writes as a side
  effect are not modelled (claims about `cleanup` quantify over arbitrary
  directory states instead).
-/

/-- Working directory state: an association list of (file name, content). -/
abbrev FileSys := List (String × Nat)

/-- Models Python `str.startswith`: the second string is a prefix of the first. -/
def startswith (s p : String) : Bool := List.isPrefixOf p.data s.data

/-- Models `os.path.exists` on the working directory. -/
def fsExists (fs : FileSys) (n : String) : Bool := fs.any (fun p => p.1 == n)

/-- Content stored under a name, if any (first entry wins, as in a real directory). -/
def fsLookup (fs : FileSys) (n : String) : Option Nat :=
  Option.map Prod.snd (fs.find? (fun p => p.1 == n))

/-- Models `os.remove`: drop every entry with the given name. -/
def fsRemove (fs : FileSys) (n : String) : FileSys := fs.filter (fun p => p.1 != n)

/-- Models `os.listdir(cwd)`: the list of file names. -/
def listdir (fs : FileSys) : List String := fs.map Prod.fst

/-- Models `safe_remove` (polargenerator.py, lines 93-96):
`if os.path.exists(file): os.remove(file)`. -/
def safe_remove (fs : FileSys) (file : String) : FileSys :=
  if fsExists fs file then fsRemove fs file else fs

/-- Models `os.rename(old, new)`: raises `FileNotFoundError` when `old` does
not exist, otherwise moves the content of `old` to name `new` (overwriting
`new`, POSIX semantics). -/
def osRename (fs : FileSys) (old new : String) : Except String FileSys :=
  match fsLookup fs old with
  | none => .error "FileNotFoundError"
  | some c => .ok (fsRemove (fsRemove fs old) new ++ [(new, c)])

/-- Models `safe_rename` (polargenerator.py, lines 99-105):
`if os.path.exists(new): os.remove(new)` followed by `os.rename(old, new)`. -/
def safe_rename (fs : FileSys) (old new : String) : Except String FileSys :=
  let fs1 := if fsExists fs new then fsRemove fs new else fs
  osRename fs1 old new

/-- Models the `for file in os.listdir(cwd)` loop body of `cleanup`
(polargenerator.py, lines 85-89), over the snapshot `ns` of directory names. -/
def cleanupLoop (airfoil : String) : List String → FileSys → Except String FileSys
  | [], fs => .ok fs
  | file :: rest, fs =>
    if startswith file "Coordinates_" then
      (safe_rename fs file (airfoil ++ ".dat")).bind (cleanupLoop airfoil rest)
    else if startswith file "Polar_" then
      (safe_rename fs file (file ++ ".txt")).bind (cleanupLoop airfoil rest)
    else cleanupLoop airfoil rest fs

/-- Models `cleanup` (polargenerator.py, lines 77-90): remove `:00.bl`, then
scan the directory listing and rename `Coordinates_*` / `Polar_*` files. -/
def cleanup (airfoil : String) (fs : FileSys) : Except String FileSys :=
  let fs1 := safe_remove fs ":00.bl"
  cleanupLoop airfoil (listdir fs1) fs1

/-- One recorded invocation of `xf.call` with all keyword arguments. -/
structure XfoilCall where
  airfoil : String
  alfas : List Rat
  output : String
  reynolds : Rat
  plots : Bool
  naca : Bool
  iteration : Nat
deriving DecidableEq

/-- Builds the `xf.call(airfoil, alfas=aoa, output="Polar", Reynolds=re,
plots=False, NACA=nacaMode, iteration=5000)` trace event (lines 44-52 and
55-63 of polargenerator.py). -/
def xfoilCall (airfoil : String) (aoa : List Rat) (re : Rat) (nacaMode : Bool) : XfoilCall :=
  { airfoil := airfoil, alfas := aoa, output := "Polar", reynolds := re
    plots := false, naca := nacaMode, iteration := 5000 }

/-- Models `np.arange(start, stop, step)` for a positive rational step:
`ceil((stop - start) / step)` values `start + k * step`. -/
def arange (start stop step : Rat) : List Rat :=
  (List.range (Int.ceil ((stop - start) / step)).toNat).map
    (fun (k : Nat) => start + (k : Rat) * step)

/-- Models `reynolds = [re * 100000 for re in [0.1, 0.5, 1]]` (line 36). -/
def reynoldsList : List Rat := [0.1, 0.5, 1].map (fun re => re * 100000)

/-- Models `aoa = list(np.arange(-20, 25, 0.5))` (line 37). -/
def aoaList : List Rat := arange (-20) 25 0.5

/-- Models the `for re in reynolds` loop of `main` (lines 40-65): returns the
trace of solver invocations together with the raised exception, if any
(`none` means the loop finished normally). An exception aborts the loop, so
later iterations contribute no calls. -/
def mainLoop (airfoil : String) (aoa : List Rat) (fs : FileSys) :
    List Rat → List XfoilCall × Option String
  | [] => ([], none)
  | re :: rest =>
    if startswith airfoil "naca" then
      let r := mainLoop airfoil aoa fs rest
      (xfoilCall airfoil aoa re true :: r.1, r.2)
    else if fsExists fs airfoil || fsExists fs (airfoil ++ ".dat") then
      let r := mainLoop airfoil aoa fs rest
      (xfoilCall airfoil aoa re false :: r.1, r.2)
    else ([], some "Airfoil file not foud")

/-- Models `main` (polargenerator.py, lines 31-67) for a given airfoil
argument and directory state: the solver-call trace, and either the raised
exception or the directory state after `cleanup`. The result files written
by the external solver are not modelled, so `cleanup` here acts on the
directory state `main` started from. -/
def main' (airfoil : String) (fs : FileSys) : List XfoilCall × Except String FileSys :=
  let r := mainLoop airfoil aoaList fs reynoldsList
  match r.2 with
  | some e => (r.1, .error e)
  | none => (r.1, cleanup airfoil fs)

/-- Contents of the files whose names start with `Coordinates_` (the solver
coordinate outputs that `cleanup` renames onto `airfoil + ".dat"`). -/
def coordContents (fs : FileSys) : List Nat :=
  (fs.filter (fun p => startswith p.1 "Coordinates_")).map Prod.snd

/-! Helper lemmas about the directory model. -/

theorem mem_fsRemove {fs : FileSys} {x : String} {p : String × Nat} :
    p ∈ fsRemove fs x ↔ p ∈ fs ∧ p.1 ≠ x := by
  simp [fsRemove, List.mem_filter, bne_iff_ne]

theorem fsExists_iff_exists_mem {fs : FileSys} {n : String} :
    fsExists fs n = true ↔ ∃ p ∈ fs, p.1 = n := by
  simp [fsExists, List.any_eq_true, beq_iff_eq]

theorem fsExists_eq_false_iff {fs : FileSys} {n : String} :
    fsExists fs n = false ↔ ∀ p ∈ fs, p.1 ≠ n := by
  simp [fsExists, List.any_eq_false, beq_iff_eq]

theorem fsExists_iff_mem_listdir {fs : FileSys} {n : String} :
    fsExists fs n = true ↔ n ∈ listdir fs := by
  simp [fsExists_iff_exists_mem, listdir, List.mem_map]

theorem fsLookup_eq_none_iff {fs : FileSys} {n : String} :
    fsLookup fs n = none ↔ fsExists fs n = false := by
  simp [fsLookup, List.find?_eq_none, fsExists_eq_false_iff, beq_iff_eq]

theorem fsExists_eq_isSome {fs : FileSys} {n : String} :
    fsExists fs n = (fsLookup fs n).isSome := by
  cases hl : fsLookup fs n with
  | none => simpa [Option.isSome] using fsLookup_eq_none_iff.mp hl
  | some c =>
    simp only [Option.isSome]
    by_contra hb
    have hf : fsExists fs n = false := by
      cases he : fsExists fs n
      · rfl
      · exact absurd (he.trans rfl) hb
    rw [fsLookup_eq_none_iff.mpr hf] at hl
    exact Option.noConfusion hl

theorem fsLookup_isSome_of_exists {fs : FileSys} {n : String}
    (h : fsExists fs n = true) : ∃ c, fsLookup fs n = some c := by
  rw [fsExists_eq_isSome] at h
  cases hl : fsLookup fs n with
  | none => rw [hl] at h; exact Bool.noConfusion h
  | some c => exact ⟨c, rfl⟩

theorem fsLookup_mem {fs : FileSys} {n : String} {c : Nat}
    (h : fsLookup fs n = some c) : (n, c) ∈ fs := by
  simp only [fsLookup, Option.map_eq_some'] at h
  obtain ⟨q, hq, hc⟩ := h
  have hmem := List.mem_of_find?_eq_some hq
  have hname : q.1 = n := by
    have hb := List.find?_some hq
    simpa only [beq_iff_eq] using hb
  obtain ⟨q1, q2⟩ := q
  simp only at hname hc
  rw [hname, hc] at hmem
  exact hmem

theorem fsLookup_fsRemove {fs : FileSys} {x n : String} (h : n ≠ x) :
    fsLookup (fsRemove fs x) n = fsLookup fs n := by
  simp only [fsLookup, fsRemove, List.find?_filter]
  have hpq : (fun a : String × Nat => decide ((a.1 != x) = true ∧ (a.1 == n) = true))
      = (fun a : String × Nat => a.1 == n) := by
    funext a
    by_cases hq : a.1 = n
    · simp [hq, bne_iff_ne, h]
    · simp [hq]
  rw [hpq]

theorem fsLookup_fsRemove_self {fs : FileSys} {x : String} :
    fsLookup (fsRemove fs x) x = none := by
  rw [fsLookup_eq_none_iff, fsExists_eq_false_iff]
  intro p hp
  exact (mem_fsRemove.mp hp).2

theorem fsExists_fsRemove {fs : FileSys} {x n : String} (h : n ≠ x) :
    fsExists (fsRemove fs x) n = fsExists fs n := by
  rw [fsExists_eq_isSome, fsExists_eq_isSome, fsLookup_fsRemove h]

theorem fsExists_fsRemove_self {fs : FileSys} {x : String} :
    fsExists (fsRemove fs x) x = false := by
  rw [fsExists_eq_isSome, fsLookup_fsRemove_self]
  rfl

theorem fsRemove_of_not_exists {fs : FileSys} {x : String}
    (h : fsExists fs x = false) : fsRemove fs x = fs := by
  apply List.filter_eq_self.mpr
  intro p hp
  exact bne_iff_ne.mpr (fsExists_eq_false_iff.mp h p hp)

theorem safe_remove_eq (fs : FileSys) (file : String) :
    safe_remove fs file = fsRemove fs file := by
  unfold safe_remove
  split
  · rfl
  · next h => exact (fsRemove_of_not_exists (Bool.not_eq_true _ ▸ Bool.of_not_eq_true h)).symm

theorem safe_rename_eq (fs : FileSys) (old new : String) :
    safe_rename fs old new = osRename (fsRemove fs new) old new := by
  unfold safe_rename
  split
  · rfl
  · next h => rw [fsRemove_of_not_exists (Bool.of_not_eq_true h ▸ rfl)]

theorem fsLookup_append_ne {l : FileSys} {d n : String} {c : Nat} (h : n ≠ d) :
    fsLookup (l ++ [(d, c)]) n = fsLookup l n := by
  simp only [fsLookup, List.find?_append]
  have hd : List.find? (fun p => p.1 == n) [(d, c)] = none := by
    simp [List.find?, beq_eq_false_iff_ne.mpr (Ne.symm h)]
  rw [hd]
  cases List.find? (fun p => p.1 == n) l <;> rfl

theorem fsLookup_append_self {l : FileSys} {d : String} {c : Nat}
    (h : fsExists l d = false) : fsLookup (l ++ [(d, c)]) d = some c := by
  have hn : List.find? (fun p => p.1 == d) l = none := by
    have h2 := fsLookup_eq_none_iff.mpr h
    simp only [fsLookup, Option.map_eq_none'] at h2
    exact h2
  simp only [fsLookup, List.find?_append, hn, Option.none_or]
  simp [List.find?_cons]

theorem fsExists_append {l : FileSys} {d n : String} {c : Nat} :
    fsExists (l ++ [(d, c)]) n = (fsExists l n || d == n) := by
  simp [fsExists, List.any_append]

theorem listdir_sublist_of_fsRemove {fs : FileSys} {x : String} :
    (listdir (fsRemove fs x)).Sublist (listdir fs) :=
  List.Sublist.map Prod.fst (List.filter_sublist fs)

theorem mem_listdir_iff {fs : FileSys} {n : String} :
    n ∈ listdir fs ↔ ∃ p ∈ fs, p.1 = n := by
  simp [listdir, List.mem_map]

/-! String-level facts used by the cleanup proofs. -/

theorem isPrefixOf_append {p l t : List Char} (h : List.isPrefixOf p l = true) :
    List.isPrefixOf p (l ++ t) = true := by
  rw [ List.isPrefixOf_iff_prefix] at h ⊢
  exact h.trans ( List.prefix_append l t)

theorem startswith_append {s t p : String} (h : startswith s p = true) :
    startswith (s ++ t) p = true := by
  simp only [startswith, String.data_append]
  exact isPrefixOf_append h

theorem ne_of_startswith {m n p : String} (hm : startswith m p = true)
    (hn : startswith n p = false) : m ≠ n := by
  intro h
  rw [h, hn] at hm
  exact Bool.noConfusion hm

theorem append_dat_ne_bl (a : String) : a ++ ".dat" ≠ ":00.bl" := by
  intro h
  have hdata := congrArg String.data h
  rw [String.data_append,
    show ".dat".data = ['.', 'd', 'a', 't'] from by decide,
    show ":00.bl".data = [':', '0', '0', '.', 'b', 'l'] from by decide] at hdata
  have hlen := congrArg List.length hdata
  simp only [List.length_append, List.length_cons, List.length_nil] at hlen
  obtain ⟨c1, c2, hc⟩ := List.length_eq_two.mp (by omega : a.data.length = 2)
  rw [hc] at hdata
  simp only [List.cons_append, List.nil_append, List.cons.injEq] at hdata
  exact absurd hdata.2.2.1 (by decide)

theorem append_txt_ne_bl (a : String) : a ++ ".txt" ≠ ":00.bl" := by
  intro h
  have hdata := congrArg String.data h
  rw [String.data_append,
    show ".txt".data = ['.', 't', 'x', 't'] from by decide,
    show ":00.bl".data = [':', '0', '0', '.', 'b', 'l'] from by decide] at hdata
  have hlen := congrArg List.length hdata
  simp only [List.length_append, List.length_cons, List.length_nil] at hlen
  obtain ⟨c1, c2, hc⟩ := List.length_eq_two.mp (by omega : a.data.length = 2)
  rw [hc] at hdata
  simp only [List.cons_append, List.nil_append, List.cons.injEq] at hdata
  exact absurd hdata.2.2.1 (by decide)

/-! Structure of a successful `safe_rename`. -/

theorem safe_rename_ok {fs fs' : FileSys} {old new : String}
    (h : safe_rename fs old new = .ok fs') :
    ∃ c, fsLookup (fsRemove fs new) old = some c ∧
      fs' = fsRemove (fsRemove (fsRemove fs new) old) new ++ [(new, c)] := by
  rw [safe_rename_eq] at h
  unfold osRename at h
  cases hl : fsLookup (fsRemove fs new) old with
  | none => rw [hl] at h; exact Except.noConfusion h
  | some c =>
    rw [hl] at h
    simp only [Except.ok.injEq] at h
    exact ⟨c, rfl, h.symm⟩

theorem safe_rename_ok_of_lookup {fs : FileSys} {old new : String} {c : Nat}
    (h : fsLookup (fsRemove fs new) old = some c) :
    safe_rename fs old new
      = .ok (fsRemove (fsRemove (fsRemove fs new) old) new ++ [(new, c)]) := by
  rw [safe_rename_eq]
  unfold osRename
  rw [h]

/-- Frame property of the cleanup scan: a name that is neither
`Coordinates_`-shaped nor `Polar_`-shaped nor the rename destination keeps
its binding through any successful run of the loop. -/
theorem cleanupLoop_frame {a n : String}
    (h1 : startswith n "Coordinates_" = false) (h2 : startswith n "Polar_" = false)
    (h4 : n ≠ a ++ ".dat") :
    ∀ (ns : List String) (fs fs' : FileSys), cleanupLoop a ns fs = .ok fs' →
      fsLookup fs' n = fsLookup fs n := by
  intro ns
  induction ns with
  | nil =>
    intro fs fs' h
    simp only [cleanupLoop, Except.ok.injEq] at h
    rw [h]
  | cons m rest ih =>
    intro fs fs' h
    simp only [cleanupLoop] at h
    by_cases hc : startswith m "Coordinates_" = true
    · rw [if_pos hc] at h
      cases hr : safe_rename fs m (a ++ ".dat") with
      | error e => rw [hr] at h; exact Except.noConfusion h
      | ok fs2 =>
        rw [hr] at h
        simp only [Except.bind] at h
        obtain ⟨c, hl, hfs2⟩ := safe_rename_ok hr
        have hnm : n ≠ m := (ne_of_startswith hc h1).symm
        have step : fsLookup fs2 n = fsLookup fs n := by
          rw [hfs2, fsLookup_append_ne h4, fsLookup_fsRemove h4, fsLookup_fsRemove hnm,
            fsLookup_fsRemove h4]
        rw [ih fs2 fs' h, step]
    · rw [if_neg hc] at h
      by_cases hp : startswith m "Polar_" = true
      · rw [if_pos hp] at h
        cases hr : safe_rename fs m (m ++ ".txt") with
        | error e => rw [hr] at h; exact Except.noConfusion h
        | ok fs2 =>
          rw [hr] at h
          simp only [Except.bind] at h
          obtain ⟨c, hl, hfs2⟩ := safe_rename_ok hr
          have hnm : n ≠ m := (ne_of_startswith hp h2).symm
          have hmt : startswith (m ++ ".txt") "Polar_" = true := startswith_append hp
          have hnt : n ≠ m ++ ".txt" := (ne_of_startswith hmt h2).symm
          have step : fsLookup fs2 n = fsLookup fs n := by
            rw [hfs2, fsLookup_append_ne hnt, fsLookup_fsRemove hnt, fsLookup_fsRemove hnm,
              fsLookup_fsRemove hnt]
          rw [ih fs2 fs' h, step]
      · rw [if_neg hp] at h
        exact ih fs fs' h

/-- When no listed name matches either rename pattern, the scan is a no-op. -/
theorem cleanupLoop_id {a : String} :
    ∀ (ns : List String) (fs : FileSys),
      (∀ n ∈ ns, startswith n "Coordinates_" = false ∧ startswith n "Polar_" = false) →
      cleanupLoop a ns fs = .ok fs := by
  intro ns
  induction ns with
  | nil => intro fs _; rfl
  | cons m rest ih =>
    intro fs h
    have hm := h m (List.mem_cons_self m rest)
    simp only [cleanupLoop]
    rw [if_neg (by rw [hm.1]; exact Bool.false_ne_true),
      if_neg (by rw [hm.2]; exact Bool.false_ne_true)]
    exact ih fs (fun n hn => h n (List.mem_cons_of_mem m hn))

/-- Scan of a directory with no `Polar_`-shaped files and a destination name
matching neither pattern: it succeeds, and the result contains no file whose
name matches either pattern. -/
theorem cleanupLoop_noPolar {a : String}
    (hA : startswith (a ++ ".dat") "Coordinates_" = false)
    (hA2 : startswith (a ++ ".dat") "Polar_" = false) :
    ∀ (ns : List String) (fs : FileSys), ns.Nodup →
      (∀ n ∈ ns, startswith n "Polar_" = false) →
      (∀ n ∈ ns, startswith n "Coordinates_" = true → fsExists fs n = true) →
      (∀ p ∈ fs, startswith p.1 "Polar_" = false ∧
        (startswith p.1 "Coordinates_" = true → p.1 ∈ ns)) →
      ∃ fs', cleanupLoop a ns fs = .ok fs' ∧
        ∀ p ∈ fs', startswith p.1 "Coordinates_" = false ∧
          startswith p.1 "Polar_" = false := by
  intro ns
  induction ns with
  | nil =>
    intro fs _ _ _ hfs
    refine ⟨fs, rfl, ?_⟩
    intro p hp
    refine ⟨?_, (hfs p hp).1⟩
    cases hcoord : startswith p.1 "Coordinates_" with
    | false => rfl
    | true => exact absurd ((hfs p hp).2 hcoord) (List.not_mem_nil p.1)
  | cons m rest ih =>
    intro fs hnd hppre hex hfs
    have hndr := List.nodup_cons.mp hnd
    by_cases hc : startswith m "Coordinates_" = true
    · have hmdst : m ≠ a ++ ".dat" := ne_of_startswith hc hA
      have hexm : fsExists fs m = true := hex m (List.mem_cons_self m rest) hc
      have hexm2 : fsExists (fsRemove fs (a ++ ".dat")) m = true := by
        rw [fsExists_fsRemove hmdst]; exact hexm
      obtain ⟨c, hlc⟩ := fsLookup_isSome_of_exists hexm2
      have hr := safe_rename_ok_of_lookup hlc
      set fs2 := fsRemove (fsRemove (fsRemove fs (a ++ ".dat")) m) (a ++ ".dat")
        ++ [(a ++ ".dat", c)] with hfs2
      have hmem2 : ∀ p ∈ fs2, (p ∈ fs ∧ p.1 ≠ a ++ ".dat" ∧ p.1 ≠ m) ∨ p = (a ++ ".dat", c) := by
        intro p hp
        rcases List.mem_append.mp hp with hl | hr2
        · have h1 := mem_fsRemove.mp hl
          have h2 := mem_fsRemove.mp h1.1
          have h3 := mem_fsRemove.mp h2.1
          exact Or.inl ⟨h3.1, h1.2, h2.2⟩
        · exact Or.inr (List.mem_singleton.mp hr2)
      have hex2 : ∀ n ∈ rest, startswith n "Coordinates_" = true → fsExists fs2 n = true := by
        intro n hn hcn
        have hnm : n ≠ m := fun he => hndr.1 (he ▸ hn)
        have hndst : n ≠ a ++ ".dat" := ne_of_startswith hcn hA
        have hexn : fsExists fs n = true := hex n (List.mem_cons_of_mem m hn) hcn
        rw [hfs2, fsExists_append, fsExists_fsRemove hndst, fsExists_fsRemove hnm,
          fsExists_fsRemove hndst, hexn]
        rfl
      have hfs4 : ∀ p ∈ fs2, startswith p.1 "Polar_" = false ∧
          (startswith p.1 "Coordinates_" = true → p.1 ∈ rest) := by
        intro p hp
        rcases hmem2 p hp with ⟨hpf, hpd, hpm⟩ | hpe
        · refine ⟨(hfs p hpf).1, fun hcp => ?_⟩
          rcases List.mem_cons.mp ((hfs p hpf).2 hcp) with he | hr3
          · exact absurd he hpm
          · exact hr3
        · rw [hpe]
          exact ⟨hA2, fun hcp => absurd (hA.symm.trans hcp) Bool.false_ne_true⟩
      obtain ⟨fs', hloop, hgood⟩ := ih fs2 hndr.2
        (fun n hn => hppre n (List.mem_cons_of_mem m hn)) hex2 hfs4
      refine ⟨fs', ?_, hgood⟩
      simp only [cleanupLoop]
      rw [if_pos hc, hr]
      simp only [Except.bind]
      exact hloop
    · by_cases hp : startswith m "Polar_" = true
      · exact absurd (hppre m (List.mem_cons_self m rest))
          (by rw [hp]; exact fun he => Bool.false_ne_true he.symm)
      · have hfs4 : ∀ p ∈ fs, startswith p.1 "Polar_" = false ∧
            (startswith p.1 "Coordinates_" = true → p.1 ∈ rest) := by
          intro p hpmem
          refine ⟨(hfs p hpmem).1, fun hcp => ?_⟩
          rcases List.mem_cons.mp ((hfs p hpmem).2 hcp) with he | hr3
          · exact absurd (he ▸ hcp) hc
          · exact hr3
        obtain ⟨fs', hloop, hgood⟩ := ih fs hndr.2
          (fun n hn => hppre n (List.mem_cons_of_mem m hn))
          (fun n hn hcn => hex n (List.mem_cons_of_mem m hn) hcn) hfs4
        refine ⟨fs', ?_, hgood⟩
        simp only [cleanupLoop]
        rw [if_neg hc, if_neg hp]
        exact hloop

/-- Claim C1, amended form: for working directories with distinct file names
containing no file whose name starts with `Polar_`, and airfoil identifiers
whose destination name `airfoil + ".dat"` itself starts with neither
`Coordinates_` nor `Polar_`, `cleanup` succeeds and running it a second time
returns exactly the same file set (in particular the second run raises no
error on the then-missing temp file `:00.bl`). -/
theorem cleanup_idempotent_noPolar (a : String) (fs : FileSys)
    (hA : startswith (a ++ ".dat") "Coordinates_" = false)
    (hA2 : startswith (a ++ ".dat") "Polar_" = false)
    (hnd : (listdir fs).Nodup)
    (hP : ∀ p ∈ fs, startswith p.1 "Polar_" = false) :
    ∃ fs', cleanup a fs = .ok fs' ∧ cleanup a fs' = .ok fs' := by
  have hnd1 : (listdir (fsRemove fs ":00.bl")).Nodup :=
    listdir_sublist_of_fsRemove.nodup hnd
  have hmem1 : ∀ p, p ∈ fsRemove fs ":00.bl" → p ∈ fs := fun p hp => (mem_fsRemove.mp hp).1
  obtain ⟨fs', hloop, hgood⟩ := cleanupLoop_noPolar hA hA2
    (listdir (fsRemove fs ":00.bl")) (fsRemove fs ":00.bl") hnd1
    (fun n hn => by
      obtain ⟨p, hpmem, hpeq⟩ := mem_listdir_iff.mp hn
      rw [← hpeq]; exact hP p (hmem1 p hpmem))
    (fun n hn _ => fsExists_iff_mem_listdir.mpr hn)
    (fun p hp => ⟨hP p (hmem1 p hp), fun _ => mem_listdir_iff.mpr ⟨p, hp, rfl⟩⟩)
  have hclean1 : cleanup a fs = .ok fs' := by
    simp only [cleanup, safe_remove_eq]
    exact hloop
  refine ⟨fs', hclean1, ?_⟩
  have hbl : fsExists fs' ":00.bl" = false := by
    have hfr := @cleanupLoop_frame a ":00.bl" (by decide) (by decide)
      (Ne.symm (append_dat_ne_bl a)) (listdir (fsRemove fs ":00.bl"))
      (fsRemove fs ":00.bl") fs' hloop
    exact fsLookup_eq_none_iff.mp (hfr.trans fsLookup_fsRemove_self)
  simp only [cleanup, safe_remove_eq, fsRemove_of_not_exists hbl]
  apply cleanupLoop_id
  intro n hn
  obtain ⟨p, hpmem, hpeq⟩ := mem_listdir_iff.mp hn
  rw [← hpeq]
  exact hgood p hpmem

/-- Claim C1, counterexample: `cleanup` is not idempotent as claimed. On the
file set with the single solver output `Polar_a`, one run renames it to
`Polar_a.txt`, but a second run renames that to `Polar_a.txt.txt`, so the
final file sets differ (the name `Polar_a.txt` is bound after one run and
unbound after two). -/
theorem cleanup_not_idempotent_cex :
    cleanup "foo" [("Polar_a", 0)] = .ok [("Polar_a.txt", 0)] ∧
    (cleanup "foo" [("Polar_a", 0)]).bind (cleanup "foo")
      = .ok [("Polar_a.txt.txt", 0)] ∧
    fsLookup [("Polar_a.txt", 0)] "Polar_a.txt"
      ≠ fsLookup [("Polar_a.txt.txt", 0)] "Polar_a.txt" :=
  ⟨rfl, rfl, by decide⟩

/-- Witness for the amended C1 theorem at a concrete directory. -/
theorem cleanup_idempotent_noPolar_witness :
    startswith ("naca0012" ++ ".dat") "Coordinates_" = false ∧
    (listdir [(":00.bl", 3), ("Coordinates_n", 1), ("old.txt", 9)]).Nodup ∧
    (∀ p ∈ [(":00.bl", 3), ("Coordinates_n", 1), ("old.txt", 9)],
      startswith p.1 "Polar_" = false) ∧
    ∃ fs', cleanup "naca0012" [(":00.bl", 3), ("Coordinates_n", 1), ("old.txt", 9)] = .ok fs' ∧
      cleanup "naca0012" fs' = .ok fs' :=
  ⟨by decide, by decide, by decide,
    cleanup_idempotent_noPolar "naca0012" [(":00.bl", 3), ("Coordinates_n", 1), ("old.txt", 9)]
      (by decide) (by decide) (by decide) (by decide)⟩

/-- Claim C9, amended form: a successful `cleanup` leaves unchanged the
binding of every file name that is not `:00.bl`, does not start with
`Coordinates_` or `Polar_`, and additionally differs from the rename
destination `airfoil + ".dat"`. -/
theorem cleanup_frame_property (a : String) (fs fs' : FileSys) (n : String)
    (h : cleanup a fs = .ok fs')
    (h1 : startswith n "Coordinates_" = false) (h2 : startswith n "Polar_" = false)
    (h3 : n ≠ ":00.bl") (h4 : n ≠ a ++ ".dat") :
    fsLookup fs' n = fsLookup fs n := by
  simp only [cleanup, safe_remove_eq] at h
  have hfr := @cleanupLoop_frame a n h1 h2 h4
    (listdir (fsRemove fs ":00.bl")) (fsRemove fs ":00.bl") fs' h
  rw [hfr, fsLookup_fsRemove h3]

/-- Claim C9, counterexample: a file whose name matches neither pattern and
is not `:00.bl` can still be destroyed by `cleanup`, namely when its name
equals the rename destination `airfoil + ".dat"`. Here `foo.dat` (content 7)
is overwritten by the renamed `Coordinates_x` (content 9). -/
theorem cleanup_frame_cex :
    cleanup "foo" [("foo.dat", 7), ("Coordinates_x", 9)] = .ok [("foo.dat", 9)] ∧
    startswith "foo.dat" "Coordinates_" = false ∧
    startswith "foo.dat" "Polar_" = false ∧
    "foo.dat" ≠ ":00.bl" ∧
    fsLookup [("foo.dat", 9)] "foo.dat"
      ≠ fsLookup [("foo.dat", 7), ("Coordinates_x", 9)] "foo.dat" :=
  ⟨rfl, by decide, by decide, by decide, by decide⟩

/-- Witness for the amended C9 frame theorem at a concrete directory. -/
theorem cleanup_frame_property_witness :
    cleanup "bar" [("keep.txt", 5), ("Coordinates_z", 8)]
      = .ok [("keep.txt", 5), ("bar.dat", 8)] ∧
    fsLookup [("keep.txt", 5), ("bar.dat", 8)] "keep.txt"
      = fsLookup [("keep.txt", 5), ("Coordinates_z", 8)] "keep.txt" :=
  ⟨rfl, cleanup_frame_property "bar" [("keep.txt", 5), ("Coordinates_z", 8)]
    [("keep.txt", 5), ("bar.dat", 8)] "keep.txt" rfl
    (by decide) (by decide) (by decide) (by decide)⟩

/-- Claim C7: after any successful `cleanup` the temporary artifact `:00.bl`
is absent from the resulting file set (in particular it is deleted when it
was present), and removing it again is a no-op rather than an error, because
`safe_remove` only calls `os.remove` behind an existence guard. -/
theorem cleanup_removes_temp (a : String) (fs fs' : FileSys)
    (h : cleanup a fs = .ok fs') :
    fsExists fs' ":00.bl" = false ∧ safe_remove fs' ":00.bl" = fs' := by
  simp only [cleanup, safe_remove_eq] at h
  have hfr := @cleanupLoop_frame a ":00.bl" (by decide) (by decide)
    (Ne.symm (append_dat_ne_bl a)) (listdir (fsRemove fs ":00.bl"))
    (fsRemove fs ":00.bl") fs' h
  have hbl : fsExists fs' ":00.bl" = false :=
    fsLookup_eq_none_iff.mp (hfr.trans fsLookup_fsRemove_self)
  exact ⟨hbl, by rw [safe_remove_eq, fsRemove_of_not_exists hbl]⟩

/-- Witness for C7: `cleanup` deletes a present `:00.bl` and tolerates its
absence. -/
theorem cleanup_removes_temp_witness :
    cleanup "w" [(":00.bl", 2), ("a.txt", 1)] = .ok [("a.txt", 1)] ∧
    fsExists [("a.txt", 1)] ":00.bl" = false ∧
    safe_remove [("a.txt", 1)] ":00.bl" = [("a.txt", 1)] :=
  ⟨rfl, (cleanup_removes_temp "w" [(":00.bl", 2), ("a.txt", 1)] [("a.txt", 1)] rfl).1,
    (cleanup_removes_temp "w" [(":00.bl", 2), ("a.txt", 1)] [("a.txt", 1)] rfl).2⟩

/-- Claim C6, amended form: for every rename whose source and destination
names differ, `safe_rename` first deletes an existing destination and then
performs the rename, so the destination ends up bound to the source's
content, the source name is gone, and no error is raised. -/
theorem safe_rename_overwrites (fs : FileSys) (old new : String)
    (hold : fsExists fs old = true) (_hnew : fsExists fs new = true)
    (hne : old ≠ new) :
    safe_rename fs old new = osRename (fsRemove fs new) old new ∧
    ∃ fs', safe_rename fs old new = .ok fs' ∧
      fsLookup fs' new = fsLookup fs old ∧ fsExists fs' old = false := by
  refine ⟨safe_rename_eq fs old new, ?_⟩
  have hold2 : fsExists (fsRemove fs new) old = true := by
    rw [fsExists_fsRemove hne]; exact hold
  obtain ⟨c, hlc⟩ := fsLookup_isSome_of_exists hold2
  refine ⟨_, safe_rename_ok_of_lookup hlc, ?_, ?_⟩
  · rw [fsLookup_append_self fsExists_fsRemove_self]
    rw [← fsLookup_fsRemove hne]
    exact hlc.symm
  · rw [fsExists_append]
    have e1 : fsExists (fsRemove (fsRemove (fsRemove fs new) old) new) old = false := by
      rw [fsExists_fsRemove hne]
      exact fsExists_fsRemove_self
    rw [e1, beq_eq_false_iff_ne.mpr (Ne.symm hne)]
    rfl

/-- Claim C6, counterexample: when the `Coordinates_*` source is itself the
destination name (airfoil `Coordinates_x`, file `Coordinates_x.dat`), the
destination exists, `safe_rename` deletes it first, and the subsequent
`os.rename` then fails, so cleanup raises instead of replacing the file. -/
theorem safe_rename_overwrites_cex :
    startswith "Coordinates_x.dat" "Coordinates_" = true ∧
    fsExists [("Coordinates_x.dat", 0)] ("Coordinates_x" ++ ".dat") = true ∧
    cleanup "Coordinates_x" [("Coordinates_x.dat", 0)] = .error "FileNotFoundError" :=
  ⟨by decide, by decide, rfl⟩

/-- Witness for the amended C6 theorem at a concrete rename. -/
theorem safe_rename_overwrites_witness :
    fsExists [("Coordinates_w", 4), ("af.dat", 7)] "Coordinates_w" = true ∧
    fsExists [("Coordinates_w", 4), ("af.dat", 7)] "af.dat" = true ∧
    ∃ fs', safe_rename [("Coordinates_w", 4), ("af.dat", 7)] "Coordinates_w" "af.dat"
        = .ok fs' ∧
      fsLookup fs' "af.dat" = fsLookup [("Coordinates_w", 4), ("af.dat", 7)] "Coordinates_w" ∧
      fsExists fs' "Coordinates_w" = false :=
  ⟨by decide, by decide,
    (safe_rename_overwrites [("Coordinates_w", 4), ("af.dat", 7)] "Coordinates_w" "af.dat"
      (by decide) (by decide) (by decide)).2⟩

/-! Behaviour of the per-Reynolds solver loop of `main`. -/

theorem mainLoop_naca {a : String} {aoa : List Rat} {fs : FileSys}
    (h : startswith a "naca" = true) :
    ∀ rs : List Rat,
      mainLoop a aoa fs rs = (rs.map (fun re => xfoilCall a aoa re true), none) := by
  intro rs
  induction rs with
  | nil => rfl
  | cons re rest ih => simp [mainLoop, h, ih]

theorem mainLoop_coordfile {a : String} {aoa : List Rat} {fs : FileSys}
    (h : startswith a "naca" = false)
    (hex : (fsExists fs a || fsExists fs (a ++ ".dat")) = true) :
    ∀ rs : List Rat,
      mainLoop a aoa fs rs = (rs.map (fun re => xfoilCall a aoa re false), none) := by
  intro rs
  induction rs with
  | nil => rfl
  | cons re rest ih => simp [mainLoop, h, hex, ih]

theorem aoaList_length : aoaList.length = 90 := by
  have h2 : (⌈((25 : Rat) - -20) / 0.5⌉).toNat = 90 := by
    have h1 : ((25 : Rat) - -20) / 0.5 = 90 := by norm_num
    rw [h1, Int.ceil_ofNat]
    rfl
  simp only [aoaList, arange, List.length_map, List.length_range]
  exact h2

/-- Claim C2: for every parametric (`naca`-prefixed) identifier, `run` makes
exactly one solver call per entry of the Reynolds list, in list order, and
every call carries the identical AOA sweep. -/
theorem main_naca_one_call_per_reynolds (a : String) (fs : FileSys)
    (h : startswith a "naca" = true) :
    (main' a fs).1 = reynoldsList.map (fun re => xfoilCall a aoaList re true) ∧
    (main' a fs).1.length = reynoldsList.length ∧
    ∀ c ∈ (main' a fs).1, c.alfas = aoaList := by
  have hm : (main' a fs).1 = reynoldsList.map (fun re => xfoilCall a aoaList re true) := by
    simp [main', mainLoop_naca h]
  refine ⟨hm, by rw [hm, List.length_map], ?_⟩
  intro c hc
  rw [hm] at hc
  obtain ⟨re, _, hceq⟩ := List.mem_map.mp hc
  rw [← hceq]
  rfl

/-- Witness for C2 on the spec's scenario input `naca0012`. -/
theorem main_naca_one_call_per_reynolds_witness :
    startswith "naca0012" "naca" = true ∧
    ( main' "naca0012" []).1
      = reynoldsList.map (fun re => xfoilCall "naca0012" aoaList re true) :=
  ⟨by decide, (main_naca_one_call_per_reynolds "naca0012" [] (by decide)).1⟩

/-- Claim C3: for a non-parametric identifier with neither `a` nor
`a + ".dat"` on disk, `run` raises the missing-airfoil error (the script's
`ValueError("Airfoil file not foud")`, named `AirfoilNotFoundError` in the
spec) with zero solver invocations. -/
theorem main_missing_file_aborts (a : String) (fs : FileSys)
    (h1 : startswith a "naca" = false)
    (h2 : fsExists fs a = false) (h3 : fsExists fs (a ++ ".dat") = false) :
    main' a fs = ([], .error "Airfoil file not foud") := by
  have hex : (fsExists fs a || fsExists fs (a ++ ".dat")) = false := by
    rw [h2, h3]; rfl
  simp [main', reynoldsList, mainLoop, h1, hex]

/-- Witness for C3 on the spec's scenario input `myfoil`. -/
theorem main_missing_file_aborts_witness :
    startswith "myfoil" "naca" = false ∧
    fsExists [] "myfoil" = false ∧
    main' "myfoil" [] = ([], .error "Airfoil file not foud") :=
  ⟨by decide, rfl, main_missing_file_aborts "myfoil" [] (by decide) rfl rfl⟩

/-- Claim C4: the Reynolds list built by `run` is exactly the ordered
sequence 1e4, 5e4, 1e5 (the comprehension `[re * 100000 for re in
[0.1, 0.5, 1]]` over exact rationals), so input `naca0012` produces exactly
3 solver invocations. -/
theorem reynolds_defaults_three_calls :
    reynoldsList = [10000, 50000, 100000] ∧
    ( main' "naca0012" []).1.length = 3 := by
  constructor
  · simp [reynoldsList]
    norm_num
  · decide

/-- Claim C5: every solver call made for a parametric identifier passes the
AOA sweep from -20 to 24.5 in steps of 0.5 (the 90 values -20 + k/2), the
Reynolds number of its loop iteration, the iteration cap 5000, and plotting
disabled. -/
theorem main_naca_call_params (a : String) (fs : FileSys)
    (h : startswith a "naca" = true) :
    aoaList.length = 90 ∧
    (∀ k (hk : k < aoaList.length), aoaList.get ⟨k, hk⟩ = -20 + (k : Rat) * 0.5) ∧
    (main' a fs).1.map XfoilCall.reynolds = reynoldsList ∧
    ∀ c ∈ (main' a fs).1, c.alfas = aoaList ∧ c.iteration = 5000 ∧ c.plots = false := by
  have hm : (main' a fs).1 = reynoldsList.map (fun re => xfoilCall a aoaList re true) := by
    simp [main', mainLoop_naca h]
  refine ⟨aoaList_length, ?_, ?_, ?_⟩
  · intro k hk
    simp only [aoaList, arange, List.get_eq_getElem, List.getElem_map, List.getElem_range]
  · rw [hm, List.map_map]
    have hid : (XfoilCall.reynolds ∘ fun re => xfoilCall a aoaList re true) = id := by
      funext re
      rfl
    rw [hid, List.map_id]
  · intro c hc
    rw [hm] at hc
    obtain ⟨re, _, hceq⟩ := List.mem_map.mp hc
    rw [← hceq]
    exact ⟨rfl, rfl, rfl⟩

/-- Witness for C5 on the scenario input `naca0012`. -/
theorem main_naca_call_params_witness :
    aoaList.length = 90 ∧
    ( main' "naca0012" []).1.map XfoilCall.reynolds = reynoldsList :=
  ⟨(main_naca_call_params "naca0012" [] (by decide)).1,
    (main_naca_call_params "naca0012" [] (by decide)).2.2.1⟩

/-- Claim C8: the parametric test is a case-sensitive check against the
lowercase literal `naca` (`NACA0012` fails it), and any identifier failing
it is treated as a coordinate file: with `a` or `a + ".dat"` on disk the
solver runs in coordinate-file mode (`NACA=False`), otherwise `run` raises
the missing-airfoil error. -/
theorem main_case_sensitive (a : String) (fs : FileSys)
    (h : startswith a "naca" = false) :
    startswith "NACA0012" "naca" = false ∧
    ((fsExists fs a || fsExists fs (a ++ ".dat")) = true →
      main' a fs = (reynoldsList.map (fun re => xfoilCall a aoaList re false),
        cleanup a fs)) ∧
    ((fsExists fs a || fsExists fs (a ++ ".dat")) = false →
      main' a fs = ([], .error "Airfoil file not foud")) := by
  refine ⟨by decide, ?_, ?_⟩
  · intro hex
    simp [main', mainLoop_coordfile h hex]
  · intro hex
    simp [main', reynoldsList, mainLoop, h, hex]

/-- Witness for C8 on the uppercase identifier `NACA0012` with its
coordinate file present. -/
theorem main_case_sensitive_witness :
    startswith "NACA0012" "naca" = false ∧
    (fsExists [("NACA0012.dat", 3)] "NACA0012"
      || fsExists [("NACA0012.dat", 3)] ("NACA0012" ++ ".dat")) = true ∧
    main' "NACA0012" [("NACA0012.dat", 3)]
      = (reynoldsList.map (fun re => xfoilCall "NACA0012" aoaList re false),
        cleanup "NACA0012" [("NACA0012.dat", 3)]) :=
  ⟨by decide, by decide,
    (main_case_sensitive "NACA0012" [("NACA0012.dat", 3)] (by decide)).2.1 (by decide)⟩

/-! Tracking of coordinate-file contents through the cleanup scan (C10). -/

theorem listdir_append {l1 l2 : FileSys} : listdir (l1 ++ l2) = listdir l1 ++ listdir l2 :=
  List.map_append Prod.fst l1 l2

theorem nodup_rename_result {fs : FileSys} {old new : String} {c : Nat}
    (hnd : (listdir fs).Nodup) :
    (listdir (fsRemove (fsRemove (fsRemove fs new) old) new ++ [(new, c)])).Nodup := by
  have h1 : (listdir (fsRemove (fsRemove (fsRemove fs new) old) new)).Nodup :=
    listdir_sublist_of_fsRemove.nodup
      (listdir_sublist_of_fsRemove.nodup (listdir_sublist_of_fsRemove.nodup hnd))
  have h2 : new ∉ listdir (fsRemove (fsRemove (fsRemove fs new) old) new) := by
    intro hd
    exact Bool.noConfusion
      (fsExists_fsRemove_self.symm.trans (fsExists_iff_mem_listdir.mpr hd))
  rw [listdir_append, show listdir [(new, c)] = [new] from rfl]
  exact List.nodup_append.mpr
    ⟨h1, List.nodup_singleton new, fun x hx hxd => h2 ((List.mem_singleton.mp hxd) ▸ hx)⟩

/-- Invariant of the cleanup scan: once every content in `C` lives either at
the destination name or in a still-pending `Coordinates_` file, a successful
scan ends with every content of `C` at the destination name (given that the
destination is not itself a `Polar_` name), and distinct names stay
distinct. -/
theorem cleanupLoop_coord_to_dest {a : String}
    (hA2 : startswith (a ++ ".dat") "Polar_" = false) (C : List Nat) :
    ∀ (ns : List String) (fs fs' : FileSys), cleanupLoop a ns fs = .ok fs' →
      (listdir fs).Nodup →
      (∀ p ∈ fs, p.2 ∈ C → p.1 = a ++ ".dat" ∨
        (startswith p.1 "Coordinates_" = true ∧ p.1 ∈ ns)) →
      (listdir fs').Nodup ∧ ∀ p ∈ fs', p.2 ∈ C → p.1 = a ++ ".dat" := by
  intro ns
  induction ns with
  | nil =>
    intro fs fs' h hnd hinv
    simp only [cleanupLoop, Except.ok.injEq] at h
    subst h
    refine ⟨hnd, fun p hp hpc => ?_⟩
    rcases hinv p hp hpc with hd | ⟨_, hmem⟩
    · exact hd
    · exact absurd hmem (List.not_mem_nil p.1)
  | cons m rest ih =>
    intro fs fs' h hnd hinv
    simp only [cleanupLoop] at h
    by_cases hc : startswith m "Coordinates_" = true
    · rw [if_pos hc] at h
      cases hr : safe_rename fs m (a ++ ".dat") with
      | error e => rw [hr] at h; exact Except.noConfusion h
      | ok fs2 =>
        rw [hr] at h
        simp only [Except.bind] at h
        obtain ⟨c, hlc, hfs2⟩ := safe_rename_ok hr
        have hnd2 : (listdir fs2).Nodup := by rw [hfs2]; exact nodup_rename_result hnd
        have hinv2 : ∀ p ∈ fs2, p.2 ∈ C → p.1 = a ++ ".dat" ∨
            (startswith p.1 "Coordinates_" = true ∧ p.1 ∈ rest) := by
          intro p hp hpc
          rw [hfs2] at hp
          rcases List.mem_append.mp hp with hl | hr2
          · have h1 := mem_fsRemove.mp hl
            have h2 := mem_fsRemove.mp h1.1
            have h3 := mem_fsRemove.mp h2.1
            rcases hinv p h3.1 hpc with hd | ⟨hcp, hmem⟩
            · exact absurd hd h1.2
            · rcases List.mem_cons.mp hmem with he | hrest
              · exact absurd he h2.2
              · exact Or.inr ⟨hcp, hrest⟩
          · rw [List.mem_singleton.mp hr2]
            exact Or.inl rfl
        exact ih fs2 fs' h hnd2 hinv2
    · rw [if_neg hc] at h
      by_cases hp : startswith m "Polar_" = true
      · rw [if_pos hp] at h
        cases hr : safe_rename fs m (m ++ ".txt") with
        | error e => rw [hr] at h; exact Except.noConfusion h
        | ok fs2 =>
          rw [hr] at h
          simp only [Except.bind] at h
          obtain ⟨c, hlc, hfs2⟩ := safe_rename_ok hr
          have hnd2 : (listdir fs2).Nodup := by rw [hfs2]; exact nodup_rename_result hnd
          have hcC : c ∉ C := by
            intro hcc
            have hmc : (m, c) ∈ fs := (mem_fsRemove.mp (fsLookup_mem hlc)).1
            rcases hinv (m, c) hmc hcc with hd | ⟨hcp, _⟩
            · exact (ne_of_startswith hp hA2) hd
            · exact absurd hcp hc
          have hinv2 : ∀ p ∈ fs2, p.2 ∈ C → p.1 = a ++ ".dat" ∨
              (startswith p.1 "Coordinates_" = true ∧ p.1 ∈ rest) := by
            intro p hpmem hpc
            rw [hfs2] at hpmem
            rcases List.mem_append.mp hpmem with hl | hr2
            · have h1 := mem_fsRemove.mp hl
              have h2 := mem_fsRemove.mp h1.1
              have h3 := mem_fsRemove.mp h2.1
              rcases hinv p h3.1 hpc with hd | ⟨hcp, hmem⟩
              · exact Or.inl hd
              · rcases List.mem_cons.mp hmem with he | hrest
                · exact absurd he h2.2
                · exact Or.inr ⟨hcp, hrest⟩
            · rw [List.mem_singleton.mp hr2] at hpc ⊢
              exact absurd hpc hcC
          exact ih fs2 fs' h hnd2 hinv2
      · rw [if_neg hp] at h
        have hinv2 : ∀ p ∈ fs, p.2 ∈ C → p.1 = a ++ ".dat" ∨
            (startswith p.1 "Coordinates_" = true ∧ p.1 ∈ rest) := by
          intro p hpmem hpc
          rcases hinv p hpmem hpc with hd | ⟨hcp, hmem⟩
          · exact Or.inl hd
          · rcases List.mem_cons.mp hmem with he | hrest
            · exact absurd (he ▸ hcp) hc
            · exact Or.inr ⟨hcp, hrest⟩
        exact ih fs fs' h hnd hinv2

/-- Claim C10, amended form: when the destination name `airfoil + ".dat"`
does not itself start with `Polar_`, file names are distinct and file
contents are distinct, every successful `cleanup` leaves at most one file
carrying the content of any original `Coordinates_*` file: each such file is
renamed onto the same destination and each rename deletes the previous one. -/
theorem cleanup_coord_at_most_one (a : String) (fs fs' : FileSys)
    (hA2 : startswith (a ++ ".dat") "Polar_" = false)
    (hnd : (listdir fs).Nodup) (hcd : (fs.map Prod.snd).Nodup)
    (h : cleanup a fs = .ok fs') :
    (fs'.filter (fun p => decide (p.2 ∈ coordContents fs))).length ≤ 1 := by
  simp only [cleanup, safe_remove_eq] at h
  have hinit : ∀ p ∈ fsRemove fs ":00.bl", p.2 ∈ coordContents fs →
      p.1 = a ++ ".dat" ∨ (startswith p.1 "Coordinates_" = true ∧
        p.1 ∈ listdir (fsRemove fs ":00.bl")) := by
    intro p hp hpc
    simp only [coordContents, List.mem_map] at hpc
    obtain ⟨q, hq, hqe⟩ := hpc
    have hqf := List.mem_filter.mp hq
    have hpfs : p ∈ fs := (mem_fsRemove.mp hp).1
    have hpq : q = p := List.inj_on_of_nodup_map hcd hqf.1 hpfs hqe
    refine Or.inr ⟨?_, mem_listdir_iff.mpr ⟨p, hp, rfl⟩⟩
    rw [← hpq]
    exact hqf.2
  obtain ⟨hnd', hdst⟩ := cleanupLoop_coord_to_dest hA2 (coordContents fs)
    (listdir (fsRemove fs ":00.bl")) (fsRemove fs ":00.bl") fs' h
    (listdir_sublist_of_fsRemove.nodup hnd) hinit
  have hsub : ∀ p ∈ fs'.filter (fun p => decide (p.2 ∈ coordContents fs)),
      p.1 = a ++ ".dat" := by
    intro p hp
    have hm := List.mem_filter.mp hp
    exact hdst p hm.1 (of_decide_eq_true hm.2)
  have hndf : (listdir (fs'.filter (fun p => decide (p.2 ∈ coordContents fs)))).Nodup :=
    (List.Sublist.map Prod.fst (List.filter_sublist fs')).nodup hnd'
  have hall : ∀ x ∈ listdir (fs'.filter (fun p => decide (p.2 ∈ coordContents fs))),
      x = a ++ ".dat" := by
    intro x hx
    obtain ⟨p, hp, hpe⟩ := List.mem_map.mp hx
    rw [← hpe]
    exact hsub p hp
  have hlen : (listdir (fs'.filter (fun p => decide (p.2 ∈ coordContents fs)))).length ≤ 1 := by
    cases hl : listdir (fs'.filter (fun p => decide (p.2 ∈ coordContents fs))) with
    | nil => exact Nat.zero_le 1
    | cons x xs =>
      cases xs with
      | nil => exact Nat.le_refl 1
      | cons y ys =>
        exfalso
        rw [hl] at hndf hall
        have hx := hall x (List.mem_cons_self x (y :: ys))
        have hy := hall y (List.mem_cons_of_mem x (List.mem_cons_self y ys))
        have hn := List.nodup_cons.mp hndf
        exact hn.1 (by rw [hx, ← hy]; exact List.mem_cons_self y ys)
  calc (fs'.filter (fun p => decide (p.2 ∈ coordContents fs))).length
      = (listdir (fs'.filter (fun p => decide (p.2 ∈ coordContents fs)))).length :=
        (List.length_map _ Prod.fst).symm
    _ ≤ 1 := hlen

/-- Claim C10, counterexample: with airfoil `Polar_q` the destination name
`Polar_q.dat` is itself a `Polar_` name; if it already exists, an
interleaved `Polar_` rename can move the first coordinate content away
before the second coordinate rename deletes the destination, so the
contents of two distinct `Coordinates_*` files both survive cleanup. -/
theorem cleanup_coord_at_most_one_cex :
    cleanup "Polar_q" [("Coordinates_x", 1), ("Polar_q.dat", 9), ("Coordinates_y", 2)]
      = .ok [("Polar_q.dat.txt", 1), ("Polar_q.dat", 2)] ∧
    ([("Polar_q.dat.txt", 1), ("Polar_q.dat", 2)].filter
      (fun p => decide (p.2 ∈ coordContents
        [("Coordinates_x", 1), ("Polar_q.dat", 9), ("Coordinates_y", 2)]))).length = 2 :=
  ⟨rfl, by decide⟩

/-- Witness for the amended C10 theorem: two coordinate files, one survivor. -/
theorem cleanup_coord_at_most_one_witness :
    cleanup "qf" [("Coordinates_x", 1), ("Coordinates_y", 2)]
      = .ok [("qf.dat", 2)] ∧
    ([("qf.dat", 2)].filter
      (fun p => decide (p.2 ∈ coordContents [("Coordinates_x", 1), ("Coordinates_y", 2)]))).length
      ≤ 1 :=
  ⟨rfl, cleanup_coord_at_most_one "qf" [("Coordinates_x", 1), ("Coordinates_y", 2)]
    [("qf.dat", 2)] (by decide) (by decide) (by decide) rfl⟩
